import Mathlib

/-!
Shallow embedding of `src/main.py` (elkacal): an interactive tool that maps a
weekday + parity recurrence choice onto explicit dates of a term calendar,
persists the course list, and exports it as a calendar file.

Dates are `(year, month, day)` triples of naturals; times of day are
`(hour, minute)` pairs (the program only ever constructs times via
`strptime('%H:%M')`, so seconds/microseconds are always zero).  Interactive
prompts become explicit arguments; a prompt whose validation would re-ask is
embedded as an `Option`-returning function where `none` marks the rejected
attempt.  File I/O becomes explicit state passing over a keyed store.
-/

/-- Calendar date, as in Python `datetime.date`. -/
structure Date where
  year : Nat
  month : Nat
  day : Nat
deriving DecidableEq, Repr

/-- Time of day restricted to the fields the program uses (`%H:%M`). -/
structure Time where
  hour : Nat
  minute : Nat
deriving DecidableEq, Repr

/-- Python `time.__lt__` on times whose seconds/microseconds are zero:
lexicographic comparison of `(hour, minute)`. -/
def Time.lt (a b : Time) : Bool :=
  a.hour < b.hour || (a.hour == b.hour && a.minute < b.minute)

/-- Gregorian leap year, as in `calendar.isleap` / `datetime`. -/
def isLeap (y : Nat) : Bool :=
  (y % 4 == 0 && y % 100 != 0) || y % 400 == 0

/-- Days in a month of the proleptic Gregorian calendar. -/
def daysInMonth (y m : Nat) : Nat :=
  if m = 2 then (if isLeap y then 29 else 28)
  else if m = 4 || m = 6 || m = 9 || m = 11 then 30
  else 31

/-- Days in the months strictly before month `m` of year `y`. -/
def daysBeforeMonth (y m : Nat) : Nat :=
  (List.range (m - 1)).foldl (fun acc i => acc + daysInMonth y (i + 1)) 0

/-- Python `date.toordinal`: day 1 is 0001-01-01 of the proleptic Gregorian
calendar. -/
def Date.toordinal (d : Date) : Nat :=
  365 * (d.year - 1) + (d.year - 1) / 4 + (d.year - 1) / 400 - (d.year - 1) / 100
    + daysBeforeMonth d.year d.month + d.day

/-- Python `date.isoweekday`: Monday = 1 … Sunday = 7 (0001-01-01 is a
Monday). -/
def Date.isoweekday (d : Date) : Int :=
  ((d.toordinal - 1) % 7 : Nat) + 1

/-- `ElkaDay` from `main.py`: one teaching day of the term.  `parity` is the
raw CSV string; the spec's `parityTag : string|null` reads the empty string as
null (see `ElkaDay.parityTag`). -/
structure ElkaDay where
  date : Date
  parity : String
  weekday : Int
deriving DecidableEq, Repr

/-- Spec-side abstraction (§3 TermDay): the `parityTag : string|null` view of
the stored parity string, where the empty CSV field reads as null. -/
def ElkaDay.parityTag (d : ElkaDay) : Option String :=
  if d.parity = "" then none else some d.parity

/-- `ElkaCourse` from `main.py`. -/
structure ElkaCourse where
  name : String
  description : String
  location : String
  start_time : Time
  end_time : Time
  days : List ElkaDay
deriving DecidableEq, Repr

/-- `WEEKDAY_CHOICES` from `main.py`. -/
def WEEKDAY_CHOICES : List (String × Int) :=
  [("Monday", 1), ("Tuesday", 2), ("Wednesday", 3), ("Thursday", 4), ("Friday", 5)]

/-- `PARITY_CHOICES` from `main.py`: label and tag tuple; choosing "Weekly"
(the "every matching day" pattern) yields the tag set `{N, P, N/P}`. -/
def PARITY_CHOICES : List (String × List String) :=
  [("Weekly", ["N", "P", "N/P"]),
   ("Even weeks", ["P"]),
   ("Odd weeks", ["N"]),
   ("Custom", [])]

/-- Split a character list at every occurrence of `sep`, as Python
`str.split(sep)` does on a non-empty separator. -/
def splitOnChar (sep : Char) : List Char → List (List Char)
  | [] => [[]]
  | c :: cs =>
    match splitOnChar sep cs with
    | [] => [[c]]
    | g :: gs => if c = sep then [] :: g :: gs else (c :: g) :: gs

/-- Value of a digit string, most significant digit first. -/
def digitsToNat (cs : List Char) : Nat :=
  cs.foldl (fun n c => n * 10 + (c.toNat - 48)) 0

/-- `strptime` of a 1-2 digit numeric field bounded by `maxVal` (`%H`, `%M`,
`%m`, `%d`). -/
def parseField (cs : List Char) (maxVal : Nat) : Option Nat :=
  if (cs.length == 1 || cs.length == 2) && cs.all Char.isDigit then
    if digitsToNat cs ≤ maxVal then some (digitsToNat cs) else none
  else none

/-- `dt.datetime.strptime(v, '%H:%M').time()`: `none` when parsing raises. -/
def parseTime (s : String) : Option Time :=
  match splitOnChar ':' s.toList with
  | [h, m] =>
    match parseField h 23, parseField m 59 with
    | some hv, some mv => some ⟨hv, mv⟩
    | _, _ => none
  | _ => none

/-- 4-digit year field of `%Y`. -/
def parseYear (cs : List Char) : Option Nat :=
  if cs.length == 4 && cs.all Char.isDigit then some (digitsToNat cs) else none

/-- `dt.datetime.strptime(date_str, '%Y-%m-%d').date()`: `none` when parsing
raises (bad shape, month/day out of range). -/
def parseDate (s : String) : Option Date :=
  match splitOnChar '-' s.toList with
  | [y, m, d] =>
    match parseYear y, parseField m 12, parseField d 31 with
    | some yv, some mv, some dv =>
      if 1 ≤ mv && 1 ≤ dv && dv ≤ daysInMonth yv mv then some ⟨yv, mv, dv⟩
      else none
    | _, _, _ => none
  | _ => none

/-- Python `int(s)` restricted to an optional leading minus sign and digits
(whitespace and a leading plus are immaterial here). -/
def strToInt (s : String) : Option Int :=
  match s.toList with
  | '-' :: rest =>
    if !rest.isEmpty && rest.all Char.isDigit then some (-(digitsToNat rest : Int))
    else none
  | cs =>
    if !cs.isEmpty && cs.all Char.isDigit then some (digitsToNat cs : Int)
    else none

/-- One record of `load_semester`'s CSV loop: parse the date, keep the parity
string verbatim, and take `int(weekday_str) if weekday_str else
date.isoweekday()`.  `none` when the date or the supplied weekday fails to
parse (Python `ParseError`/`ValueError`). -/
def parseRecord (date_str parity weekday_str : String) : Option ElkaDay :=
  match parseDate date_str with
  | none => none
  | some date =>
    match (if weekday_str = "" then some date.isoweekday else strToInt weekday_str) with
    | none => none
    | some wd => some ⟨date, parity, wd⟩

/-- `load_semester` over an already-split CSV row list. -/
def load_semester (rows : List (String × String × String)) : Option (List ElkaDay) :=
  match rows with
  | [] => some []
  | (ds, ps, ws) :: rest =>
    match parseRecord ds ps ws, load_semester rest with
    | some d, some days => some (d :: days)
    | _, _ => none

/-- `days_all` from `create_course`: the checkbox choices (full offered set)
for a chosen weekday. -/
def days_all (semester : List ElkaDay) (weekday : Int) : List ElkaDay :=
  semester.filter (fun d => d.weekday == weekday)

/-- `days_default` from `create_course`: the pre-checked default, filtering
the offered set by Python tuple membership `d.parity in parities`. -/
def days_default (semester : List ElkaDay) (weekday : Int)
    (parities : List String) : List ElkaDay :=
  (days_all semester weekday).filter (fun d => parities.contains d.parity)

/-- End-time default from `create_course`: start time plus 105 minutes
(`datetime.combine` + `timedelta`, taking `.time()` drops the date). -/
def end_time_default (start : Time) : Time :=
  let total := start.hour * 60 + start.minute + 105
  ⟨total / 60 % 24, total % 60⟩

/-- `create_course` from `main.py` as a function of the user's answers.
`select` stands for the `inquirer.checkbox` interaction: it receives the
offered choices and the pre-checked default and returns the confirmed list;
the source attaches no validation to it.  `none` embeds the re-prompt loops
of the time prompts: an unparseable start time, or an end time that does not
parse or is not strictly later than the start, never produces a course. -/
def create_course (semester : List ElkaDay) (name description location : String)
    (weekday : Int) (start_str end_str : String) (parities : List String)
    (select : List ElkaDay → List ElkaDay → List ElkaDay) : Option ElkaCourse :=
  match parseTime start_str with
  | none => none
  | some start_time =>
    match parseTime end_str with
    | none => none
    | some end_time =>
      if Time.lt start_time end_time then
        some ⟨name, description, location, start_time, end_time,
          select (days_all semester weekday) (days_default semester weekday parities)⟩
      else none

/-- Zero-pad a natural to two digits, as `%H`/`%M`/`%m`/`%d` render. -/
def pad2 (n : Nat) : String :=
  if n < 10 then "0" ++ toString n else toString n

/-- Zero-pad a year to four digits, as `%Y` renders. -/
def pad4 (n : Nat) : String :=
  if n < 10 then "000" ++ toString n
  else if n < 100 then "00" ++ toString n
  else if n < 1000 then "0" ++ toString n
  else toString n

/-- `strftime('%a')` weekday abbreviation, computed from the date as Python
does. -/
def dayAbbrev (d : Date) : String :=
  match d.isoweekday with
  | 1 => "Mon" | 2 => "Tue" | 3 => "Wed" | 4 => "Thu"
  | 5 => "Fri" | 6 => "Sat" | _ => "Sun"

/-- `time.strftime(DISPLAY_TIME_FMT)`, i.e. `%H:%M`. -/
def fmtTime (t : Time) : String :=
  pad2 t.hour ++ ":" ++ pad2 t.minute

/-- `ElkaCourse.__str__`: the course summary used as the menu label.  It
indexes `self.days[0]`, so on an empty `days` list Python raises
`IndexError`; that partiality is embedded as `none`. -/
def ElkaCourse.str (c : ElkaCourse) : Option String :=
  match c.days with
  | [] => none
  | d0 :: _ =>
    some (c.name
      ++ (if c.description = "" then "" else "(" ++ c.description ++ ")")
      ++ " on " ++ dayAbbrev d0.date
      ++ " at " ++ fmtTime c.start_time
      ++ " in " ++ c.location
      ++ " (" ++ toString c.days.length ++ " classes)")

/-- The `f'Remove {course}'` menu entry title built in `main`'s loop. -/
def removeLabel (c : ElkaCourse) : Option String :=
  (ElkaCourse.str c).map (fun s => "Remove " ++ s)

/-- A local calendar instant: `dt.datetime.combine(date, time)` wrapped by
`arrow.get(..., 'local')`. -/
structure Instant where
  date : Date
  time : Time
deriving DecidableEq, Repr

/-- `arrow_to_iso` from `ics.utils`: ISO rendering of the instant.  The local
UTC-offset suffix depends on the machine's timezone and is elided here. -/
def arrow_to_iso (i : Instant) : String :=
  pad4 i.date.year ++ "-" ++ pad2 i.date.month ++ "-" ++ pad2 i.date.day
    ++ "T" ++ pad2 i.time.hour ++ ":" ++ pad2 i.time.minute ++ ":00"

/-- One `ics` `Event` as `export` builds it: verbatim text fields, the
begin/end instants (source keyword arguments `begin`/`end`; `end` is reserved
in Lean), and the single extra `RDATE` content line's value. -/
structure Event where
  name : String
  description : String
  location : String
  begin_ : Instant
  end_ : Instant
  rdate : String
deriving DecidableEq, Repr

/-- The loop body of `export` for one course: the anchor event at
`days[0].date` with `start_time`/`end_time`, plus the comma-joined `RDATE`
value with one instant per member of `days` at `start_time`.  `days[0]` on an
empty list raises `IndexError`, embedded as `none`. -/
def exportEvent (c : ElkaCourse) : Option Event :=
  match c.days with
  | [] => none
  | d0 :: _ =>
    some { name := c.name, description := c.description, location := c.location,
           begin_ := ⟨d0.date, c.start_time⟩,
           end_ := ⟨d0.date, c.end_time⟩,
           rdate := String.intercalate ","
             (c.days.map (fun d => arrow_to_iso ⟨d.date, c.start_time⟩)) }

/-- `export` from `main.py` (renamed: `export` is reserved in Lean): one
event per course, in course-list order; the first course with an empty `days`
list aborts the whole export with an `IndexError` (`none`). -/
def exportCal : List ElkaCourse → Option (List Event)
  | [] => some []
  | c :: cs =>
    match exportEvent c, exportCal cs with
    | some e, some es => some (e :: es)
    | _, _ => none

/-- A pickled Python value, sufficient for the `ElkaCourse` object graph.
Modelled from the spec: the `pickle` serialization itself is library code
outside this repository; §4.3 only requires a structured serialization of the
Course entity graph that round-trips every field. -/
inductive PValue where
  | pstr : String → PValue
  | pnat : Nat → PValue
  | pint : Int → PValue
  | plist : List PValue → PValue
deriving Repr

/-- Serialize one `ElkaDay`. -/
def encodeDay (d : ElkaDay) : PValue :=
  .plist [.pnat d.date.year, .pnat d.date.month, .pnat d.date.day,
          .pstr d.parity, .pint d.weekday]

/-- Deserialize one `ElkaDay`. -/
def decodeDay : PValue → Option ElkaDay
  | .plist [.pnat y, .pnat m, .pnat dv, .pstr p, .pint w] => some ⟨⟨y, m, dv⟩, p, w⟩
  | _ => none

/-- Serialize a `Time`. -/
def encodeTime (t : Time) : PValue :=
  .plist [.pnat t.hour, .pnat t.minute]

/-- Deserialize a `Time`. -/
def decodeTime : PValue → Option Time
  | .plist [.pnat h, .pnat m] => some ⟨h, m⟩
  | _ => none

/-- Serialize the day list of a course. -/
def encodeDays : List ElkaDay → List PValue
  | [] => []
  | d :: ds => encodeDay d :: encodeDays ds

/-- Deserialize a day list. -/
def decodeDays : List PValue → Option (List ElkaDay)
  | [] => some []
  | v :: vs =>
    match decodeDay v, decodeDays vs with
    | some d, some ds => some (d :: ds)
    | _, _ => none

/-- Serialize one `ElkaCourse`. -/
def encodeCourse (c : ElkaCourse) : PValue :=
  .plist [.pstr c.name, .pstr c.description, .pstr c.location,
          encodeTime c.start_time, encodeTime c.end_time,
          .plist (encodeDays c.days)]

/-- Deserialize one `ElkaCourse`. -/
def decodeCourse : PValue → Option ElkaCourse
  | .plist [.pstr n, .pstr de, .pstr l, st, et, .plist ds] =>
    match decodeTime st, decodeTime et, decodeDays ds with
    | some st', some et', some ds' => some ⟨n, de, l, st', et', ds'⟩
    | _, _, _ => none
  | _ => none

/-- Serialize the course list element-wise. -/
def encodeCourseList : List ElkaCourse → List PValue
  | [] => []
  | c :: cs => encodeCourse c :: encodeCourseList cs

/-- Deserialize a course list element-wise. -/
def decodeCourseList : List PValue → Option (List ElkaCourse)
  | [] => some []
  | v :: vs =>
    match decodeCourse v, decodeCourseList vs with
    | some c, some cs => some (c :: cs)
    | _, _ => none

/-- The one pickled object `pickle.dump` writes for the course list. -/
def encodeCourses (cs : List ElkaCourse) : PValue :=
  .plist (encodeCourseList cs)

/-- Inverse of `encodeCourses`, as `pickle.load` reconstructs it. -/
def decodeCourses : PValue → Option (List ElkaCourse)
  | .plist vs => decodeCourseList vs
  | _ => none

/-- The filesystem holding the pickle files, keyed by calendar name
(`f'{cal_name}.pickle'`).  `none` is an absent file; a present file holds the
stream of pickled objects it contains (a complete dump holds exactly one, a
file truncated by `open(..., 'wb')` holds none). -/
def Store := String → Option (List PValue)

/-- A store with no files, the state before any session ran. -/
def emptyStore : Store := fun _ => none

/-- `main`'s load step: `pickle.load(open(f'{cal_name}.pickle', 'rb'))` with
`except FileNotFoundError: courses = []`.  An absent file yields `[]`; a
present but empty or undecodable file makes `pickle.load` raise an error the
program does not catch (`none`). -/
def loadStore (key : String) (fs : Store) : Option (List ElkaCourse) :=
  match fs key with
  | none => some []
  | some [] => none
  | some (v :: _) => decodeCourses v

/-- `main`'s save step, completed: `pickle.dump(courses, open(f, 'wb'))`
replaces the file's contents with the single pickled course-list object. -/
def saveStore (key : String) (cs : List ElkaCourse) (fs : Store) : Store :=
  fun k => if k = key then some [encodeCourses cs] else fs k

/-- The store states the save step passes through, in order: the prior state,
the state right after `open(f, 'wb')` truncates the file to empty, and the
state after `pickle.dump` has written the object.  Python's `'wb'` mode
truncates on open, before any byte is written. -/
def saveStates (key : String) (cs : List ElkaCourse) (fs : Store) : List Store :=
  [fs,
   fun k => if k = key then some [] else fs k,
   saveStore key cs fs]

/-- The spec's §8 example course: two Monday meetings, 08:00-09:45. -/
def exampleCourse : ElkaCourse :=
  ⟨"Algebra", "lecture", "room 107", ⟨8, 0⟩, ⟨9, 45⟩,
   [⟨⟨2022, 2, 28⟩, "P", 1⟩, ⟨⟨2022, 3, 14⟩, "P", 1⟩]⟩

/-- The store after a completed session saved `[exampleCourse]` under "A". -/
def c9Old : Store := saveStore "A" [exampleCourse] emptyStore

/-- The store state after `open('A.pickle', 'wb')` truncated the file but
before `pickle.dump` wrote anything. -/
def c9Mid : Store := fun k => if k = "A" then some [] else c9Old k

lemma decodeDay_encodeDay (d : ElkaDay) : decodeDay (encodeDay d) = some d := rfl

lemma decodeTime_encodeTime (t : Time) : decodeTime (encodeTime t) = some t := rfl

lemma decodeDays_encodeDays (ds : List ElkaDay) :
    decodeDays (encodeDays ds) = some ds := by
  induction ds with
  | nil => rfl
  | cons d ds ih => simp [encodeDays, decodeDays, decodeDay_encodeDay, ih]

lemma decodeCourse_encodeCourse (c : ElkaCourse) :
    decodeCourse (encodeCourse c) = some c := by
  simp [encodeCourse, decodeCourse, decodeTime_encodeTime, decodeDays_encodeDays]

lemma decodeCourseList_encodeCourseList (cs : List ElkaCourse) :
    decodeCourseList (encodeCourseList cs) = some cs := by
  induction cs with
  | nil => rfl
  | cons c cs ih => simp [encodeCourseList, decodeCourseList, decodeCourse_encodeCourse, ih]

/-- C3: saving a course sequence under a key and then loading that key
returns the same sequence field for field — dates, times of day, and the
parity string (hence `parityTag` nullability) included.  Proven for every
course sequence, the non-empty ones of the claim in particular. -/
theorem c3_store_round_trip (key : String) (cs : List ElkaCourse) (fs : Store) :
    loadStore key (saveStore key cs fs) = some cs := by
  simp [loadStore, saveStore, encodeCourses, decodeCourses,
    decodeCourseList_encodeCourseList]

/-- C6: loading a key for which no store file exists returns the empty
sequence (`except FileNotFoundError: courses = []`), not an error. -/
theorem c6_load_absent_returns_empty (key : String) (fs : Store)
    (h : fs key = none) : loadStore key fs = some [] := by
  simp [loadStore, h]

theorem c6_load_absent_witness : loadStore "sessionA" emptyStore = some [] :=
  c6_load_absent_returns_empty "sessionA" emptyStore rfl

/-- C9 (amended): a completed save is a full whole-object overwrite — the
final state of the save holds exactly the new serialized sequence under the
key, independent of the prior contents, and leaves every other key unchanged.
The claim's further atomicity of an interrupted save does not hold (see the
counterexample): the write truncates before it writes. -/
theorem c9_completed_save_overwrites (key : String) (cs : List ElkaCourse)
    (fs : Store) (k : String) (hk : k ≠ key) :
    (saveStates key cs fs).getLast? = some (saveStore key cs fs) ∧
    (saveStore key cs fs) key = some [encodeCourses cs] ∧
    (saveStore key cs fs) k = fs k := by
  refine ⟨rfl, ?_, ?_⟩
  · simp [saveStore]
  · simp [saveStore, hk]

theorem c9_completed_save_witness :
    (saveStates "A" [] emptyStore).getLast? = some (saveStore "A" [] emptyStore) ∧
    (saveStore "A" [] emptyStore) "A" = some [encodeCourses []] ∧
    (saveStore "A" [] emptyStore) "B" = emptyStore "B" :=
  c9_completed_save_overwrites "A" [] emptyStore "B" (by decide)

/-- C9 counterexample: the state the save step passes through right after
`open(..., 'wb')` truncated the file is a store state that is neither the
complete old sequence's state nor the complete new one's — loading it is an
uncaught error — so an interrupted save can leave a third state, contrary to
the claimed atomicity. -/
theorem c9_interrupted_save_counterexample :
    c9Mid ∈ saveStates "A" [] c9Old ∧
    c9Mid "A" ≠ c9Old "A" ∧
    c9Mid "A" ≠ (saveStore "A" [] c9Old) "A" ∧
    loadStore "A" c9Mid = none := by
  refine ⟨?_, ?_, ?_, rfl⟩
  · unfold saveStates
    exact List.mem_cons_of_mem _ (List.mem_cons_self _ _)
  · simp [c9Mid, c9Old, saveStore, encodeCourses, encodeCourseList]
  · simp [c9Mid, saveStore, encodeCourses]

/-- C1: for any term-day sequence, weekday and parity filter, the checkbox
choice list (full offered set) is exactly the subsequence of the term whose
members have the chosen weekday, and the pre-checked default is a subset of
that offered set. -/
theorem c1_offered_set_and_default_subset (T : List ElkaDay) (w : Int)
    (ps : List String) :
    (days_all T w).Sublist T ∧
    (∀ d : ElkaDay, d ∈ days_all T w ↔ d ∈ T ∧ d.weekday = w) ∧
    (∀ d : ElkaDay, d ∈ days_default T w ps → d ∈ days_all T w) := by
  refine ⟨List.filter_sublist T, ?_, ?_⟩
  · intro d
    simp [days_all, List.mem_filter]
  · intro d hd
    exact List.mem_of_mem_filter hd

/-- C2 counterexample: under the "Weekly" ("every matching day") choice the
default is computed by membership of the parity string in `('N','P','N/P')`,
so a weekday-matching day whose parity field is empty (null `parityTag`) is
not in the default, contradicting the claim's "filter is every ⇒ in the
default" disjunct. -/
theorem c2_every_filter_counterexample :
    ¬ (∀ (T : List ElkaDay) (w : Int) (label : String) (ps : List String)
        (d : ElkaDay), (label, ps) ∈ PARITY_CHOICES →
        (d ∈ days_default T w ps ↔
          d ∈ T ∧ d.weekday = w ∧ (label = "Weekly" ∨ d.parity ∈ ps))) := by
  intro h
  have hmem := (h [⟨⟨2022, 2, 28⟩, "", 1⟩] 1 "Weekly" ["N", "P", "N/P"]
      ⟨⟨2022, 2, 28⟩, "", 1⟩ (by decide)).mpr
      ⟨List.mem_singleton_self _, rfl, Or.inl rfl⟩
  exact absurd hmem (by decide)

/-- C2 (amended): the default candidate set contains a day iff it is in the
term, its weekday matches, and its parity string is a member of the chosen
filter's tag tuple — with no special case for the "every matching day"
choice, whose tag tuple is `('N', 'P', 'N/P')`; days with a null/empty
parity tag are therefore excluded from every default, "Weekly" included. -/
theorem c2_default_membership (T : List ElkaDay) (w : Int) (ps : List String)
    (d : ElkaDay) :
    d ∈ days_default T w ps ↔ d ∈ T ∧ d.weekday = w ∧ d.parity ∈ ps := by
  simp [days_default, days_all, List.mem_filter, and_assoc]
  tauto

/-- C7: given the parsed start and end times, a course-creation attempt whose
end time is not strictly later than its start time yields no course (the
prompt re-asks), and any course the attempt does yield carries exactly those
times with end strictly after start. -/
theorem c7_end_time_validation (semester : List ElkaDay)
    (name description location : String) (w : Int) (start_str end_str : String)
    (ps : List String) (select : List ElkaDay → List ElkaDay → List ElkaDay)
    (ts te : Time) (hs : parseTime start_str = some ts)
    (he : parseTime end_str = some te) :
    (Time.lt ts te = false →
      create_course semester name description location w start_str end_str ps select = none) ∧
    (∀ c : ElkaCourse,
      create_course semester name description location w start_str end_str ps select = some c →
      c.start_time = ts ∧ c.end_time = te ∧ Time.lt c.start_time c.end_time = true) := by
  constructor
  · intro hlt
    simp [create_course, hs, he, hlt]
  · intro c hc
    simp only [create_course, hs, he] at hc
    cases hb : Time.lt ts te with
    | false =>
      rw [hb] at hc
      simp at hc
    | true =>
      rw [hb] at hc
      simp only [if_true] at hc
      simp only [Option.some.injEq] at hc
      subst hc
      exact ⟨rfl, rfl, hb⟩

theorem c7_end_time_validation_witness :
    create_course [] "" "" "" 1 "10:00" "09:00" [] (fun _ d => d) = none :=
  (c7_end_time_validation [] "" "" "" 1 "10:00" "09:00" [] (fun _ d => d)
    ⟨10, 0⟩ ⟨9, 0⟩ (by decide) (by decide)).1 (by decide)

/-- C8: for a term record whose date parses, an empty weekday field makes the
loader derive the weekday from the date's ISO weekday instead of failing, a
non-empty weekday field makes it use that parsed integer, and a record with
an empty parity field parses to a day whose `parityTag` is null. -/
theorem c8_loader_parsing_policy (date_str parity weekday_str : String)
    (date : Date) (hd : parseDate date_str = some date) :
    (weekday_str = "" →
      parseRecord date_str parity weekday_str = some ⟨date, parity, date.isoweekday⟩) ∧
    (∀ n : Int, strToInt weekday_str = some n → weekday_str ≠ "" →
      parseRecord date_str parity weekday_str = some ⟨date, parity, n⟩) ∧
    (parity = "" → ∀ d : ElkaDay,
      parseRecord date_str parity weekday_str = some d → d.parityTag = none) := by
  refine ⟨?_, ?_, ?_⟩
  · intro hw
    simp [parseRecord, hd, hw]
  · intro n hn hw
    simp [parseRecord, hd, hw, hn]
  · intro hp d h
    by_cases hw : weekday_str = ""
    · simp [parseRecord, hd, hw] at h
      rw [← h]
      simp [ElkaDay.parityTag, hp]
    · cases hn : strToInt weekday_str with
      | none => simp [parseRecord, hd, hw, hn] at h
      | some n =>
        simp [parseRecord, hd, hw, hn] at h
        rw [← h]
        simp [ElkaDay.parityTag, hp]

theorem c8_loader_parsing_policy_witness :
    parseRecord "2022-02-28" "" "" = some ⟨⟨2022, 2, 28⟩, "", 1⟩ ∧
    ElkaDay.parityTag ⟨⟨2022, 2, 28⟩, "", 1⟩ = none ∧
    parseRecord "2022-02-28" "N" "3" = some ⟨⟨2022, 2, 28⟩, "N", 3⟩ := by
  refine ⟨?_, ?_, ?_⟩
  · exact ((c8_loader_parsing_policy "2022-02-28" "" "" ⟨2022, 2, 28⟩
      (by decide)).1 rfl).trans (by decide)
  · exact (c8_loader_parsing_policy "2022-02-28" "" "" ⟨2022, 2, 28⟩
      (by decide)).2.2 rfl ⟨⟨2022, 2, 28⟩, "", 1⟩ (by decide)
  · exact (c8_loader_parsing_policy "2022-02-28" "N" "3" ⟨2022, 2, 28⟩
      (by decide)).2.1 3 (by decide) (by decide)

/-- The event `export` builds for the spec's §8 example course. -/
def exampleEvent : Event :=
  ⟨"Algebra", "lecture", "room 107",
   ⟨⟨2022, 2, 28⟩, ⟨8, 0⟩⟩, ⟨⟨2022, 2, 28⟩, ⟨9, 45⟩⟩,
   "2022-02-28T08:00:00,2022-03-14T08:00:00"⟩

lemma exportEvent_some {c : ElkaCourse} {e : Event} (hc : exportEvent c = some e) :
    e.name = c.name ∧ e.description = c.description ∧ e.location = c.location ∧
    (c.days.head?).map (fun d0 => Instant.mk d0.date c.start_time) = some e.begin_ ∧
    (c.days.head?).map (fun d0 => Instant.mk d0.date c.end_time) = some e.end_ ∧
    e.rdate = String.intercalate ","
      (c.days.map (fun d => arrow_to_iso ⟨d.date, c.start_time⟩)) := by
  cases hdays : c.days with
  | nil => simp [exportEvent, hdays] at hc
  | cons d0 rest =>
    simp [exportEvent, hdays] at hc
    subst hc
    simp [hdays]

/-- C5: a successful export emits exactly one event per course, in order;
each event's begin/end instants are the course's first day combined with its
start/end time, its name/description/location are copied verbatim, and its
single recurrence-dates field comma-joins one instant per member of `days`,
each that day's date combined with the start time. -/
theorem c5_export_one_event_per_course (courses : List ElkaCourse)
    (events : List Event) (h : exportCal courses = some events) :
    events.length = courses.length ∧
    List.Forall₂ (fun (c : ElkaCourse) (e : Event) =>
      e.name = c.name ∧ e.description = c.description ∧ e.location = c.location ∧
      (c.days.head?).map (fun d0 => Instant.mk d0.date c.start_time) = some e.begin_ ∧
      (c.days.head?).map (fun d0 => Instant.mk d0.date c.end_time) = some e.end_ ∧
      e.rdate = String.intercalate ","
        (c.days.map (fun d => arrow_to_iso ⟨d.date, c.start_time⟩)))
      courses events := by
  induction courses generalizing events with
  | nil =>
    simp [exportCal] at h
    subst h
    exact ⟨rfl, List.Forall₂.nil⟩
  | cons c cs ih =>
    rw [exportCal] at h
    cases hc : exportEvent c with
    | none => rw [hc] at h; simp at h
    | some e =>
      cases hcs : exportCal cs with
      | none => rw [hc, hcs] at h; simp at h
      | some es =>
        rw [hc, hcs] at h
        simp only [Option.some.injEq] at h
        subst h
        obtain ⟨hlen, hfa⟩ := ih es hcs
        exact ⟨by simp [hlen], List.Forall₂.cons (exportEvent_some hc) hfa⟩

theorem c5_export_witness :
    exportCal [exampleCourse] = some [exampleEvent] ∧
    ([exampleEvent].length = [exampleCourse].length ∧
      List.Forall₂ (fun (c : ElkaCourse) (e : Event) =>
        e.name = c.name ∧ e.description = c.description ∧ e.location = c.location ∧
        (c.days.head?).map (fun d0 => Instant.mk d0.date c.start_time) = some e.begin_ ∧
        (c.days.head?).map (fun d0 => Instant.mk d0.date c.end_time) = some e.end_ ∧
        e.rdate = String.intercalate ","
          (c.days.map (fun d => arrow_to_iso ⟨d.date, c.start_time⟩)))
        [exampleCourse] [exampleEvent]) :=
  ⟨by decide, c5_export_one_event_per_course [exampleCourse] [exampleEvent] (by decide)⟩

/-- C4 (code bug): with an empty checkbox selection, `create_course` returns
a course whose `days` list is empty instead of re-prompting or rejecting;
that course's menu label and any later export then fail on `days[0]`. -/
theorem c4_empty_selection_accepted :
    create_course [⟨⟨2022, 2, 28⟩, "P", 1⟩] "Algebra" "" "room 107" 1
      "08:00" "09:45" ["P"] (fun _ _ => []) =
      some ⟨"Algebra", "", "room 107", ⟨8, 0⟩, ⟨9, 45⟩, []⟩ ∧
    ElkaCourse.str ⟨"Algebra", "", "room 107", ⟨8, 0⟩, ⟨9, 45⟩, []⟩ = none ∧
    removeLabel ⟨"Algebra", "", "room 107", ⟨8, 0⟩, ⟨9, 45⟩, []⟩ = none ∧
    exportCal [⟨"Algebra", "", "room 107", ⟨8, 0⟩, ⟨9, 45⟩, []⟩] = none := by
  exact ⟨by decide, rfl, rfl, rfl⟩

lemma exportCal_isSome (cs : List ElkaCourse) :
    (exportCal cs).isSome = cs.all (fun c => !c.days.isEmpty) := by
  induction cs with
  | nil => rfl
  | cons c cs ih =>
    cases hd : c.days with
    | nil => simp [exportCal, exportEvent, hd]
    | cons d0 rest =>
      cases hcs : exportCal cs with
      | none =>
        rw [hcs] at ih
        simp [exportCal, exportEvent, hd, hcs, ← ih]
      | some es =>
        rw [hcs] at ih
        simp [exportCal, exportEvent, hd, hcs, ← ih]

/-- C10: the exporter and the course summary (menu label) are defined exactly
on non-empty `days`: the summary of a course succeeds iff its `days` list is
non-empty, and the export of a course list succeeds iff every course in it
has non-empty `days` — on any other input they fail producing no output. -/
theorem c10_empty_days_partiality (cs : List ElkaCourse) (c : ElkaCourse) :
    ((exportCal cs).isSome = cs.all (fun cc => !cc.days.isEmpty)) ∧
    ((ElkaCourse.str c).isSome = !c.days.isEmpty) ∧
    ((removeLabel c).isSome = !c.days.isEmpty) := by
  refine ⟨exportCal_isSome cs, ?_, ?_⟩
  · cases hd : c.days <;> simp [ElkaCourse.str, hd]
  · cases hd : c.days <;> simp [removeLabel, ElkaCourse.str, hd]
